import Mathlib

/-!
Shallow embedding of the reasoning-bank repository core:
memory storage (src/memory.py), retrieval with leak guard
(modelled from the specification; the retrieval module itself is not
among the sources), and the Wilson-interval significance analysis
(src/run_phase1.py).
-/

/-! ## Data model: MemoryItem and its dict serialization (src/memory.py) -/

/-- Single memory item in ReasoningBank (dataclass `MemoryItem`).
Strings are embedded as `String`, the optional embedding vector as
`Option (List ℚ)`. -/
structure MemoryItem where
  title : String
  description : String
  content : String
  source_problem_id : String
  success : Bool
  created_at : String
  embedding : Option (List ℚ)
deriving DecidableEq

/-- The field-for-field dictionary produced by `MemoryItem.to_dict`
(`asdict` of the dataclass) and consumed by `MemoryItem.from_dict`. -/
structure MemDict where
  title : String
  description : String
  content : String
  source_problem_id : String
  success : Bool
  created_at : String
  embedding : Option (List ℚ)
deriving DecidableEq

/-- `MemoryItem.to_dict`: `asdict(self)`. -/
def MemoryItem.to_dict (m : MemoryItem) : MemDict :=
  ⟨m.title, m.description, m.content, m.source_problem_id, m.success,
   m.created_at, m.embedding⟩

/-- `MemoryItem.from_dict`: `cls(**data)`. -/
def MemoryItem.from_dict (d : MemDict) : MemoryItem :=
  ⟨d.title, d.description, d.content, d.source_problem_id, d.success,
   d.created_at, d.embedding⟩

/-- `ReasoningBank.save`: the JSON payload written to disk is the list of
dicts `[m.to_dict() for m in self.memories]`. -/
def saveBank (memories : List MemoryItem) : List MemDict :=
  memories.map MemoryItem.to_dict

/-- Reading back a well-formed saved payload:
`[MemoryItem.from_dict(m) for m in data]` in `ReasoningBank.load`. -/
def loadSaved (data : List MemDict) : List MemoryItem :=
  data.map MemoryItem.from_dict

/-! ## Load failure model (src/memory.py, `ReasoningBank.load`) -/

/-- One JSON record of the stored list: either it parses into a valid
`MemoryItem` dict, or `MemoryItem.from_dict` (`cls(**data)`) fails on it. -/
inductive RawRecord where
  | valid (d : MemDict)
  | malformed
deriving DecidableEq

/-- Failures `ReasoningBank.load` lets escape: the file exists but is not
JSON (`json.load` raises), or a record does not form a `MemoryItem`
(`cls(**data)` raises). `FileNotFoundError` is the one caught case. -/
inductive LoadError where
  | decodeError
  | badRecord
deriving DecidableEq

/-- State of the backing store at load time: absent, present but not
parseable as JSON, or a JSON list of records. -/
inductive StoredFile where
  | missing
  | notJson
  | json (rows : List RawRecord)

/-- `MemoryItem.from_dict(m)` on one raw record: succeeds on a valid dict,
raises (`TypeError` from `cls(**data)`) otherwise. -/
def parseRecord : RawRecord → Except LoadError MemoryItem
  | .valid d => .ok (MemoryItem.from_dict d)
  | .malformed => .error .badRecord

/-- The list comprehension `[MemoryItem.from_dict(m) for m in data]`:
all-or-nothing, the first failing record aborts the whole load and no
partial list is produced. -/
def parseRecords : List RawRecord → Except LoadError (List MemoryItem)
  | [] => .ok []
  | r :: rs =>
    match parseRecord r with
    | .error e => .error e
    | .ok m =>
      match parseRecords rs with
      | .error e => .error e
      | .ok ms => .ok (m :: ms)

/-- `ReasoningBank.load`: `FileNotFoundError` (missing store) yields the
empty bank; any other read or parse failure propagates to the caller. -/
def loadBank : StoredFile → Except LoadError (List MemoryItem)
  | .missing => .ok []
  | .notJson => .error .decodeError
  | .json rows => parseRecords rows

/-! ## Bank mutation (src/memory.py) -/

/-- In-memory state of a `ReasoningBank`. -/
structure Bank where
  memories : List MemoryItem

/-- `ReasoningBank.add_memory`: `self.memories.append(memory)` then
`self.save()`. The second component is the trace of store writes the
operation performs (each write is the full serialized sequence). -/
def add_memory (b : Bank) (memory : MemoryItem) : Bank × List (List MemDict) :=
  let b2 : Bank := ⟨b.memories ++ [memory]⟩
  (b2, [saveBank b2.memories])

/-- `ReasoningBank.add_memories`: `self.memories.extend(memories)` then a
single `self.save()` after the full extend. -/
def add_memories (b : Bank) (memories : List MemoryItem) : Bank × List (List MemDict) :=
  let b2 : Bank := ⟨b.memories ++ memories⟩
  (b2, [saveBank b2.memories])

/-- `ReasoningBank.clear`: `self.memories = []` then `self.save()`. -/
def clearBank (b : Bank) : Bank × List (List MemDict) :=
  let b2 : Bank := ⟨[]⟩
  (b2, [saveBank b2.memories])

/-! ## Retrieval with leak guard (modelled from the spec) -/

/-- Needle-at-front test used by substring containment. -/
def listStartsWith : List Char → List Char → Bool
  | [], _ => true
  | _ :: _, [] => false
  | a :: as, b :: bs => a == b && listStartsWith as bs

/-- Python's `needle in hay` substring containment on character lists. -/
def containsSub (needle : List Char) : List Char → Bool
  | [] => needle.isEmpty
  | b :: bs => listStartsWith needle (b :: bs) || containsSub needle bs

/-- Substring containment on `String`. -/
def containsText (needle hay : String) : Bool :=
  containsSub needle.data hay.data

/-- Modelled from the spec: the leak-guard predicate of the retrieval
module (`retrieval/retriever.py`, not among the sources) — a candidate
memory leaks when its `content` or `description` textually contains the
literal form of `expected_value`. -/
def leaksExpectedValue (expected_value : String) (m : MemoryItem) : Bool :=
  containsText expected_value m.content || containsText expected_value m.description

/-- Lexicographic order on character lists, used for the `created_at`
tie-break. -/
def charListLe : List Char → List Char → Bool
  | [], _ => true
  | _ :: _, [] => false
  | a :: as, b :: bs => if a = b then charListLe as bs else decide (a < b)

/-- Modelled from the spec: ranking order of scored candidates — score
descending, ties broken by earlier `created_at`. -/
def rankLe (x y : MemoryItem × ℚ) : Bool :=
  if x.2 = y.2 then charListLe x.1.created_at.data y.1.created_at.data
  else decide (y.2 < x.2)

/-- Insertion step of the stable sort on scored candidates. -/
def insertRanked (x : MemoryItem × ℚ) : List (MemoryItem × ℚ) → List (MemoryItem × ℚ)
  | [] => [x]
  | y :: ys => if rankLe x y then x :: y :: ys else y :: insertRanked x ys

/-- Stable sort of scored candidates by `rankLe`. -/
def sortRanked : List (MemoryItem × ℚ) → List (MemoryItem × ℚ)
  | [] => []
  | x :: xs => insertRanked x (sortRanked xs)

/-- Modelled from the spec: `retrieve(query, pool, top_k, expected_value)`
of the retrieval module (`retrieval/retriever.py`, not among the sources).
Step 1 filters out every candidate whose `content` or `description`
contains `expected_value` (before any scoring); step 2 scores the
survivors (`scoreOf` abstracts the embedding-similarity / lexical-overlap
relevance measure, resolved per candidate); step 3 sorts by score
descending with `created_at` tie-break and takes the first `top_k`;
non-positive `top_k` retrieves nothing. -/
def retrieve (scoreOf : String → MemoryItem → ℚ) (query : String)
    (pool : List MemoryItem) (top_k : ℤ) (expected_value : String) :
    List (MemoryItem × ℚ) :=
  if top_k ≤ 0 then []
  else
    let survivors := pool.filter (fun m => !(leaksExpectedValue expected_value m))
    let scored := survivors.map (fun m => (m, scoreOf query m))
    (sortRanked scored).take top_k.toNat

/-- Concrete item used to exercise the retrieval path. -/
def sampleItem : MemoryItem :=
  ⟨"t", "d", "c", "p1", true, "2024-01-01", none⟩

/-! ## Wilson interval and summary statistics (src/run_phase1.py) -/

/-- The hardcoded `z = 1.96  # 95% confidence` of `_compute_wilson_ci`. -/
noncomputable def z95 : ℝ := 1.96

/-- `denominator = 1 + z**2 / n`. -/
noncomputable def wilsonDenominator (n : ℕ) : ℝ := 1 + z95 ^ 2 / n

/-- `center = (p + z**2 / (2*n)) / denominator` with `p = successes / n`. -/
noncomputable def wilsonCenter (successes : ℤ) (n : ℕ) : ℝ :=
  ((successes : ℝ) / n + z95 ^ 2 / (2 * n)) / wilsonDenominator n

/-- The argument of `math.sqrt` in the margin: `p*(1-p)/n + z**2/(4*n**2)`. -/
noncomputable def wilsonSqrtArg (successes : ℤ) (n : ℕ) : ℝ :=
  ((successes : ℝ) / n) * (1 - (successes : ℝ) / n) / n + z95 ^ 2 / (4 * n ^ 2)

/-- `margin = z * math.sqrt(p*(1-p)/n + z**2/(4*n**2)) / denominator`. -/
noncomputable def wilsonMargin (successes : ℤ) (n : ℕ) : ℝ :=
  z95 * Real.sqrt (wilsonSqrtArg successes n) / wilsonDenominator n

/-- `Phase1Experiment._compute_wilson_ci(successes, n, confidence=0.95)`.
`n == 0` returns `(0.0, 0.0)`; a negative square-root argument makes
`math.sqrt` raise `ValueError`, embedded as `none`; otherwise the pair
`(max(0, center - margin), min(1, center + margin))`.  The `confidence`
parameter is ignored by the body, exactly as in the source. -/
noncomputable def compute_wilson_ci (successes : ℤ) (n : ℕ) (confidence : ℝ) :
    Option (ℝ × ℝ) :=
  if n = 0 then some (0.0, 0.0)
  else if wilsonSqrtArg successes n < 0 then none
  else some (max 0 (wilsonCenter successes n - wilsonMargin successes n),
             min 1 (wilsonCenter successes n + wilsonMargin successes n))

/-- Clamp to `[0, 1]`. -/
noncomputable def clamp01 (x : ℝ) : ℝ := min 1 (max 0 x)

/-- The specification's contract `wilsonInterval(successes, n, confidenceZ)`:
`n == 0` yields `(0.0, 0.0)`; otherwise, with `p = successes/n` and
`z = confidenceZ`, `center = (p + z²/(2n)) / (1 + z²/n)`,
`margin = z·sqrt(p(1-p)/n + z²/(4n²)) / (1 + z²/n)`, returning
`(clamp(center − margin, 0, 1), clamp(center + margin, 0, 1))`. -/
noncomputable def wilsonInterval_spec (successes : ℤ) (n : ℕ) (confidenceZ : ℝ) :
    ℝ × ℝ :=
  if n = 0 then (0.0, 0.0)
  else
    let p : ℝ := (successes : ℝ) / n
    let z : ℝ := confidenceZ
    let center := (p + z ^ 2 / (2 * n)) / (1 + z ^ 2 / n)
    let margin := z * Real.sqrt (p * (1 - p) / n + z ^ 2 / (4 * n ^ 2)) / (1 + z ^ 2 / n)
    (clamp01 (center - margin), clamp01 (center + margin))

/-- The value of a successful `_compute_wilson_ci` call (the orchestration
always calls it with `0 ≤ successes ≤ n`, where it never fails). -/
noncomputable def wilson_ci_val (successes : ℤ) (n : ℕ) (confidence : ℝ) : ℝ × ℝ :=
  (compute_wilson_ci successes n confidence).getD (0.0, 0.0)

/-- `sum(1 for r in results if r['evaluation']['success'])`, with each
outcome embedded as its success flag. -/
def successCount (results : List Bool) : ℕ :=
  results.countP (fun b => b)

/-- The summary dict assembled by `Phase1Experiment.save_results`. -/
structure Phase1Summary where
  baseline_accuracy : ℝ
  baseline_ci_lower : ℝ
  baseline_ci_upper : ℝ
  with_memory_accuracy : ℝ
  with_memory_ci_lower : ℝ
  with_memory_ci_upper : ℝ
  absolute_improvement : ℝ
  relative_improvement : ℝ
  confidence_intervals_overlap : Prop
  statistically_significant : Prop

/-- `Phase1Experiment.save_results` (statistics portion, lines 113-138):
success counts, accuracies (`x / len(...) if ... else 0`), the two Wilson
intervals at the default `confidence=0.95`, the improvements, and the two
interval-comparison flags. -/
noncomputable def save_results_summary (baseline : List Bool) (with_memory : List Bool) :
    Phase1Summary :=
  let baseline_successes := successCount baseline
  let memory_successes := successCount with_memory
  let baseline_acc : ℝ :=
    if baseline = [] then 0 else (baseline_successes : ℝ) / (baseline.length : ℝ)
  let memory_acc : ℝ :=
    if with_memory = [] then 0 else (memory_successes : ℝ) / (with_memory.length : ℝ)
  let baseline_ci := wilson_ci_val baseline_successes baseline.length 0.95
  let memory_ci := wilson_ci_val memory_successes with_memory.length 0.95
  { baseline_accuracy := baseline_acc
    baseline_ci_lower := baseline_ci.1
    baseline_ci_upper := baseline_ci.2
    with_memory_accuracy := memory_acc
    with_memory_ci_lower := memory_ci.1
    with_memory_ci_upper := memory_ci.2
    absolute_improvement := memory_acc - baseline_acc
    relative_improvement :=
      if baseline_acc > 0 then (memory_acc - baseline_acc) / baseline_acc else 0
    confidence_intervals_overlap := ¬ (memory_ci.1 > baseline_ci.2)
    statistically_significant := memory_ci.1 > baseline_ci.2 }

/-- The significance criterion of `save_results` as a predicate of the two
arms' success counts and sample sizes:
`memory_ci[0] > baseline_ci[1]`. -/
noncomputable def significantFlag (b_s b_n m_s m_n : ℕ) : Prop :=
  (wilson_ci_val m_s m_n 0.95).1 > (wilson_ci_val b_s b_n 0.95).2

/-! ## Helper lemmas -/

theorem from_dict_to_dict (m : MemoryItem) : MemoryItem.from_dict m.to_dict = m := by
  cases m; rfl

theorem mem_insertRanked {a x : MemoryItem × ℚ} {l : List (MemoryItem × ℚ)} :
    a ∈ insertRanked x l ↔ a = x ∨ a ∈ l := by
  induction l with
  | nil => simp [insertRanked]
  | cons y ys ih =>
    by_cases h : rankLe x y = true
    · simp [insertRanked, h]
    · simp only [insertRanked, h]
      simp only [Bool.false_eq_true, if_false, List.mem_cons, ih]
      tauto

theorem mem_sortRanked {a : MemoryItem × ℚ} {l : List (MemoryItem × ℚ)} :
    a ∈ sortRanked l ↔ a ∈ l := by
  induction l with
  | nil => simp [sortRanked]
  | cons x xs ih => simp [sortRanked, mem_insertRanked, ih]

theorem parseRecords_error_of_malformed {rows : List RawRecord}
    (h : RawRecord.malformed ∈ rows) :
    parseRecords rows = .error .badRecord := by
  induction rows with
  | nil => cases h
  | cons r rs ih =>
    cases r with
    | malformed => rfl
    | valid d =>
      have hm : RawRecord.malformed ∈ rs := by
        rcases List.mem_cons.mp h with h1 | h2
        · cases h1
        · exact h2
      simp [parseRecords, parseRecord, ih hm]

theorem parseRecords_ok_all_valid {rows : List RawRecord} {items : List MemoryItem}
    (h : parseRecords rows = .ok items) :
    items.length = rows.length ∧ ∀ r ∈ rows, ∃ d, r = RawRecord.valid d := by
  induction rows generalizing items with
  | nil =>
    simp only [parseRecords] at h
    cases h
    exact ⟨rfl, by simp⟩
  | cons r rs ih =>
    cases r with
    | malformed => simp [parseRecords, parseRecord] at h
    | valid d =>
      simp only [parseRecords, parseRecord] at h
      rcases hrs : parseRecords rs with e | ms
      · rw [hrs] at h; cases h
      · rw [hrs] at h
        cases h
        obtain ⟨hl, hv⟩ := ih hrs
        refine ⟨by simp [hl], ?_⟩
        intro x hx
        rcases List.mem_cons.mp hx with h1 | h2
        · exact ⟨d, h1⟩
        · exact hv x h2

/-! ## Claim theorems -/

/-- C4: saving a bank and then loading it back reproduces an equal
sequence of memory items, field for field and in order — the save/load
round trip through `to_dict`/`from_dict` is the identity. -/
theorem bank_save_load_roundtrip (items : List MemoryItem) :
    loadSaved (saveBank items) = items := by
  simp only [loadSaved, saveBank, List.map_map]
  have h : MemoryItem.from_dict ∘ MemoryItem.to_dict = id := by
    funext m
    exact from_dict_to_dict m
  rw [h, List.map_id]

/-- C5: a missing backing store loads as the empty bank without error; a
store that exists but is not parseable (not JSON, or containing a record
that does not form a valid MemoryItem) surfaces an error to the caller;
and a successful load implies every record parsed, so the bank never
proceeds with a partially parsed collection. -/
theorem load_failure_policy :
    (loadBank .missing = .ok []) ∧
    (loadBank .notJson = .error .decodeError) ∧
    (∀ rows : List RawRecord, RawRecord.malformed ∈ rows →
      loadBank (.json rows) = .error .badRecord) ∧
    (∀ (rows : List RawRecord) (items : List MemoryItem),
      loadBank (.json rows) = .ok items →
      items.length = rows.length ∧ ∀ r ∈ rows, ∃ d, r = RawRecord.valid d) := by
  refine ⟨rfl, rfl, ?_, ?_⟩
  · intro rows h
    exact parseRecords_error_of_malformed h
  · intro rows items h
    exact parseRecords_ok_all_valid h

/-- C5 witness: a store holding one malformed record surfaces an error,
and the concrete well-formed singleton store loads fully. -/
theorem load_failure_policy_witness :
    RawRecord.malformed ∈ [RawRecord.malformed] ∧
    loadBank (.json [RawRecord.malformed]) = .error .badRecord ∧
    loadBank (.json [RawRecord.valid sampleItem.to_dict]) = .ok [sampleItem] ∧
    ([sampleItem].length = [RawRecord.valid sampleItem.to_dict].length ∧
      ∀ r ∈ [RawRecord.valid sampleItem.to_dict], ∃ d, r = RawRecord.valid d) := by
  have hmem : RawRecord.malformed ∈ [RawRecord.malformed] := by decide
  have hok : loadBank (.json [RawRecord.valid sampleItem.to_dict]) = .ok [sampleItem] := by
    rfl
  exact ⟨hmem, load_failure_policy.2.2.1 [RawRecord.malformed] hmem,
    hok, load_failure_policy.2.2.2 [RawRecord.valid sampleItem.to_dict] [sampleItem] hok⟩

/-- C6: each mutating operation leaves the in-memory sequence equal to the
previous one with the new items appended in order (emptied for clear), and
performs exactly one store write containing the serialization of the full
current sequence (for the batch add, one write after the whole extend). -/
theorem bank_mutation_persistence (b : Bank) (m : MemoryItem) (ms : List MemoryItem) :
    ((add_memory b m).1.memories = b.memories ++ [m] ∧
      (add_memory b m).2 = [saveBank (b.memories ++ [m])]) ∧
    ((add_memories b ms).1.memories = b.memories ++ ms ∧
      (add_memories b ms).2 = [saveBank (b.memories ++ ms)] ∧
      (add_memories b ms).2.length = 1) ∧
    ((clearBank b).1.memories = [] ∧
      (clearBank b).2 = [saveBank []]) :=
  ⟨⟨rfl, rfl⟩, ⟨rfl, rfl, rfl⟩, ⟨rfl, rfl⟩⟩

/-- C1: the summary's statistically_significant flag holds exactly when
the memory arm's Wilson lower bound strictly exceeds the baseline arm's
Wilson upper bound, and confidence_intervals_overlap is exactly its
negation. -/
theorem summary_significance_criterion (baseline with_memory : List Bool) :
    ((save_results_summary baseline with_memory).statistically_significant ↔
      (wilson_ci_val (successCount with_memory) with_memory.length 0.95).1 >
        (wilson_ci_val (successCount baseline) baseline.length 0.95).2) ∧
    ((save_results_summary baseline with_memory).confidence_intervals_overlap ↔
      ¬ (save_results_summary baseline with_memory).statistically_significant) :=
  ⟨Iff.rfl, Iff.rfl⟩

/-- C3: retrieval never returns an item whose content or description
contains the literal expected value — the leak guard filters before
scoring, for every pool, score function, query and top_k. -/
theorem retrieve_leak_guard (scoreOf : String → MemoryItem → ℚ) (query : String)
    (pool : List MemoryItem) (top_k : ℤ) (expected_value : String)
    (m : MemoryItem) (q : ℚ)
    (h : (m, q) ∈ retrieve scoreOf query pool top_k expected_value) :
    leaksExpectedValue expected_value m = false := by
  unfold retrieve at h
  by_cases hk : top_k ≤ 0
  · rw [if_pos hk] at h
    cases h
  · rw [if_neg hk] at h
    have h2 : (m, q) ∈ sortRanked ((pool.filter
        (fun x => !(leaksExpectedValue expected_value x))).map
        (fun x => (x, scoreOf query x))) := List.take_subset _ _ h
    have h3 : (m, q) ∈ (pool.filter
        (fun x => !(leaksExpectedValue expected_value x))).map
        (fun x => (x, scoreOf query x)) := mem_sortRanked.mp h2
    rcases List.mem_map.mp h3 with ⟨x, hx, hxe⟩
    have hm : m = x := (congrArg Prod.fst hxe).symm
    have hf := List.of_mem_filter hx
    rw [← hm] at hf
    simpa using hf

/-- C3 witness: a concrete non-leaking item is retrieved and indeed does
not contain the expected value. -/
theorem retrieve_leak_guard_witness :
    ((sampleItem, (0 : ℚ)) ∈ retrieve (fun _ _ => 0) "q" [sampleItem] 1 "42") ∧
    leaksExpectedValue "42" sampleItem = false := by
  have hmem : (sampleItem, (0 : ℚ)) ∈ retrieve (fun _ _ => 0) "q" [sampleItem] 1 "42" := by
    decide
  exact ⟨hmem, retrieve_leak_guard (fun _ _ => 0) "q" [sampleItem] 1 "42"
    sampleItem 0 hmem⟩

theorem z95_nonneg : (0 : ℝ) ≤ z95 := by norm_num [z95]

theorem wilsonDenominator_pos (n : ℕ) : 0 < wilsonDenominator n := by
  unfold wilsonDenominator
  have h : (0 : ℝ) ≤ z95 ^ 2 / n := div_nonneg (sq_nonneg z95) (Nat.cast_nonneg n)
  linarith

theorem wilsonSqrtArg_nonneg (s : ℤ) (n : ℕ) (h0 : 0 ≤ s) (hsn : s ≤ (n : ℤ)) :
    0 ≤ wilsonSqrtArg s n := by
  rcases Nat.eq_zero_or_pos n with hn | hn
  · subst hn
    norm_num [wilsonSqrtArg]
  · have hN : (0 : ℝ) < n := by exact_mod_cast hn
    have hp0 : (0 : ℝ) ≤ (s : ℝ) / n := div_nonneg (by exact_mod_cast h0) hN.le
    have hp1 : (s : ℝ) / n ≤ 1 := by
      rw [div_le_one hN]
      exact_mod_cast hsn
    unfold wilsonSqrtArg
    have h1 : 0 ≤ ((s : ℝ) / n) * (1 - (s : ℝ) / n) := mul_nonneg hp0 (by linarith)
    have h2 : 0 ≤ ((s : ℝ) / n) * (1 - (s : ℝ) / n) / n := div_nonneg h1 hN.le
    have h3 : (0 : ℝ) ≤ z95 ^ 2 / (4 * (n : ℝ) ^ 2) :=
      div_nonneg (sq_nonneg z95) (by positivity)
    linarith

theorem wilsonMargin_nonneg (s : ℤ) (n : ℕ) : 0 ≤ wilsonMargin s n := by
  unfold wilsonMargin
  exact div_nonneg (mul_nonneg z95_nonneg (Real.sqrt_nonneg _))
    (wilsonDenominator_pos n).le

theorem wilsonCenter_nonneg (s : ℤ) (n : ℕ) (h0 : 0 ≤ s) : 0 ≤ wilsonCenter s n := by
  unfold wilsonCenter
  apply div_nonneg _ (wilsonDenominator_pos n).le
  have hp0 : (0 : ℝ) ≤ (s : ℝ) / n := div_nonneg (by exact_mod_cast h0) (Nat.cast_nonneg n)
  have h1 : (0 : ℝ) ≤ z95 ^ 2 / (2 * (n : ℝ)) := div_nonneg (sq_nonneg z95) (by positivity)
  linarith

theorem wilsonCenter_le_one (s : ℤ) (n : ℕ) (hsn : s ≤ (n : ℤ)) : wilsonCenter s n ≤ 1 := by
  rcases Nat.eq_zero_or_pos n with hn | hn
  · subst hn
    norm_num [wilsonCenter, wilsonDenominator]
  · have hN : (0 : ℝ) < n := by exact_mod_cast hn
    unfold wilsonCenter
    rw [div_le_one (wilsonDenominator_pos n)]
    unfold wilsonDenominator
    have hp1 : (s : ℝ) / n ≤ 1 := by
      rw [div_le_one hN]
      exact_mod_cast hsn
    have h2 : z95 ^ 2 / (2 * (n : ℝ)) = z95 ^ 2 / n / 2 := by ring
    have h3 : (0 : ℝ) ≤ z95 ^ 2 / n := div_nonneg (sq_nonneg z95) hN.le
    rw [h2]
    linarith

theorem compute_wilson_ci_eq (s : ℤ) (n : ℕ) (conf : ℝ) (hn : n ≠ 0)
    (hA : 0 ≤ wilsonSqrtArg s n) :
    compute_wilson_ci s n conf =
      some (max 0 (wilsonCenter s n - wilsonMargin s n),
            min 1 (wilsonCenter s n + wilsonMargin s n)) := by
  unfold compute_wilson_ci
  rw [if_neg hn, if_neg (not_lt.mpr hA)]

theorem wilson_ci_val_eq (s : ℤ) (n : ℕ) (conf : ℝ) (hn : n ≠ 0)
    (hA : 0 ≤ wilsonSqrtArg s n) :
    wilson_ci_val s n conf =
      (max 0 (wilsonCenter s n - wilsonMargin s n),
       min 1 (wilsonCenter s n + wilsonMargin s n)) := by
  rw [wilson_ci_val, compute_wilson_ci_eq s n conf hn hA]
  rfl

theorem wilsonInterval_spec_eval (s : ℤ) (n : ℕ) (z : ℝ) (hn : n ≠ 0) :
    wilsonInterval_spec s n z =
      (clamp01 (((s : ℝ) / n + z ^ 2 / (2 * n)) / (1 + z ^ 2 / n)
        - z * Real.sqrt (((s : ℝ) / n) * (1 - (s : ℝ) / n) / n + z ^ 2 / (4 * (n : ℝ) ^ 2)) / (1 + z ^ 2 / n)),
       clamp01 (((s : ℝ) / n + z ^ 2 / (2 * n)) / (1 + z ^ 2 / n)
        + z * Real.sqrt (((s : ℝ) / n) * (1 - (s : ℝ) / n) / n + z ^ 2 / (4 * (n : ℝ) ^ 2)) / (1 + z ^ 2 / n))) := by
  unfold wilsonInterval_spec
  rw [if_neg hn]

theorem wilson_code_eq_spec (s : ℤ) (n : ℕ) (conf : ℝ) (h0 : 0 ≤ s)
    (hsn : s ≤ (n : ℤ)) :
    compute_wilson_ci s n conf = some (wilsonInterval_spec s n z95) := by
  rcases Nat.eq_zero_or_pos n with hn | hn
  · subst hn
    unfold compute_wilson_ci wilsonInterval_spec
    rw [if_pos rfl, if_pos rfl]
  · have hn0 : n ≠ 0 := hn.ne'
    have hA := wilsonSqrtArg_nonneg s n h0 hsn
    have hm0 := wilsonMargin_nonneg s n
    have hc0 := wilsonCenter_nonneg s n h0
    have hc1 := wilsonCenter_le_one s n hsn
    rw [compute_wilson_ci_eq s n conf hn0 hA]
    have hspec : wilsonInterval_spec s n z95 =
        (clamp01 (wilsonCenter s n - wilsonMargin s n),
         clamp01 (wilsonCenter s n + wilsonMargin s n)) := by
      unfold wilsonInterval_spec wilsonCenter wilsonMargin wilsonSqrtArg wilsonDenominator
      rw [if_neg hn0]
    rw [hspec]
    have hlo : clamp01 (wilsonCenter s n - wilsonMargin s n) =
        max 0 (wilsonCenter s n - wilsonMargin s n) := by
      unfold clamp01
      exact min_eq_right (max_le (by norm_num) (by linarith))
    have hhi : clamp01 (wilsonCenter s n + wilsonMargin s n) =
        min 1 (wilsonCenter s n + wilsonMargin s n) := by
      unfold clamp01
      rw [max_eq_right (by linarith : (0 : ℝ) ≤ wilsonCenter s n + wilsonMargin s n)]
    rw [hlo, hhi]

/-- C2: under `0 ≤ successes ≤ n` the computed interval exists and
satisfies `0 ≤ lower ≤ upper ≤ 1`; `n = 0` returns exactly `(0.0, 0.0)`;
and the code's one-sided clamps coincide with the spec's two-sided clamp
of each bound to `[0, 1]` (the result equals the spec interval at
`z = 1.96`). -/
theorem wilson_ci_bounds (s : ℤ) (n : ℕ) (conf : ℝ) (h0 : 0 ≤ s) (hsn : s ≤ (n : ℤ)) :
    (∃ l u, compute_wilson_ci s n conf = some (l, u) ∧ 0 ≤ l ∧ l ≤ u ∧ u ≤ 1) ∧
    (n = 0 → compute_wilson_ci s n conf = some (0.0, 0.0)) ∧
    compute_wilson_ci s n conf = some (wilsonInterval_spec s n z95) := by
  refine ⟨?_, ?_, wilson_code_eq_spec s n conf h0 hsn⟩
  · rcases Nat.eq_zero_or_pos n with hn | hn
    · subst hn
      refine ⟨0, 0, ?_, le_refl 0, le_refl 0, by norm_num⟩
      unfold compute_wilson_ci
      rw [if_pos rfl]
      norm_num
    · have hn0 : n ≠ 0 := hn.ne'
      have hA := wilsonSqrtArg_nonneg s n h0 hsn
      have hm0 := wilsonMargin_nonneg s n
      have hc0 := wilsonCenter_nonneg s n h0
      have hc1 := wilsonCenter_le_one s n hsn
      refine ⟨max 0 (wilsonCenter s n - wilsonMargin s n),
              min 1 (wilsonCenter s n + wilsonMargin s n),
              compute_wilson_ci_eq s n conf hn0 hA, le_max_left 0 _, ?_, min_le_left 1 _⟩
      apply le_min
      · exact max_le (by norm_num) (by linarith)
      · exact max_le (by linarith) (by linarith)
  · intro hn
    subst hn
    unfold compute_wilson_ci
    rw [if_pos rfl]

/-- C2 witness at successes = 1, n = 2. -/
theorem wilson_ci_bounds_witness :
    (0 : ℤ) ≤ 1 ∧ (1 : ℤ) ≤ ((2 : ℕ) : ℤ) ∧
    (∃ l u, compute_wilson_ci 1 2 0.95 = some (l, u) ∧ 0 ≤ l ∧ l ≤ u ∧ u ≤ 1) :=
  ⟨by decide, by decide, (wilson_ci_bounds 1 2 0.95 (by decide) (by decide)).1⟩

/-- C7 counterexample: calling `_compute_wilson_ci` with the confidence
argument 1 does not produce the Wilson interval with z = 1 — the body
ignores the argument and uses the hardcoded z = 1.96. -/
theorem wilson_confidence_ignored_counterexample :
    compute_wilson_ci 0 4 1 ≠ some (wilsonInterval_spec 0 4 1) := by
  have hA4 : wilsonSqrtArg 0 4 = (z95 / 8) ^ 2 := by
    unfold wilsonSqrtArg
    norm_num
    ring
  have hs4 : Real.sqrt (wilsonSqrtArg 0 4) = z95 / 8 := by
    rw [hA4, Real.sqrt_sq (by norm_num [z95])]
  have hc : wilsonCenter 0 4 = 2401 / 9802 := by
    unfold wilsonCenter wilsonDenominator
    norm_num [z95]
  have hm : wilsonMargin 0 4 = 2401 / 9802 := by
    unfold wilsonMargin wilsonDenominator
    rw [hs4]
    norm_num [z95]
  have hcode : compute_wilson_ci 0 4 1 = some (0, 2401 / 4901) := by
    rw [compute_wilson_ci_eq 0 4 1 (by norm_num) (by rw [hA4]; positivity), hc, hm]
    norm_num
  have hspec : wilsonInterval_spec 0 4 1 = (0, 1 / 5) := by
    rw [wilsonInterval_spec_eval 0 4 1 (by norm_num)]
    have harg : (((0 : ℤ) : ℝ) / ((4 : ℕ) : ℝ)) * (1 - ((0 : ℤ) : ℝ) / ((4 : ℕ) : ℝ)) / ((4 : ℕ) : ℝ) +
        (1 : ℝ) ^ 2 / (4 * ((4 : ℕ) : ℝ) ^ 2) = (1 / 8 : ℝ) ^ 2 := by
      norm_num
    rw [harg, Real.sqrt_sq (by norm_num : (0 : ℝ) ≤ 1 / 8)]
    unfold clamp01
    norm_num
  rw [hcode, hspec]
  intro h
  have h2 := congrArg (fun o => (Option.getD o (0, 0)).2) h
  norm_num at h2

/-- C7 amended: the Wilson computation fixes z = 1.96 and ignores the
confidence argument entirely — two calls with different confidence values
return identical results, and under the precondition the result is the
spec's Wilson interval at z = 1.96 regardless of the argument. -/
theorem wilson_z_hardcoded (s : ℤ) (n : ℕ) (c₁ c₂ : ℝ) :
    compute_wilson_ci s n c₁ = compute_wilson_ci s n c₂ ∧
    (0 ≤ s → s ≤ (n : ℤ) →
      compute_wilson_ci s n c₁ = some (wilsonInterval_spec s n z95)) :=
  ⟨rfl, fun h0 hsn => wilson_code_eq_spec s n c₁ h0 hsn⟩

/-- C7 amended witness at successes = 1, n = 4, confidence = 0.5. -/
theorem wilson_z_hardcoded_witness :
    (0 : ℤ) ≤ 1 ∧ (1 : ℤ) ≤ ((4 : ℕ) : ℤ) ∧
    compute_wilson_ci 1 4 0.5 = some (wilsonInterval_spec 1 4 z95) :=
  ⟨by decide, by decide, (wilson_z_hardcoded 1 4 0.5 2).2 (by decide) (by decide)⟩

theorem wilsonSqrtArg_neg (s : ℤ) (n : ℕ) (hn : 0 < n) (h : s < 0 ∨ (n : ℤ) < s) :
    wilsonSqrtArg s n < 0 := by
  have hN : (0 : ℝ) < n := by exact_mod_cast hn
  have hn1 : (1 : ℤ) ≤ (n : ℤ) := by exact_mod_cast hn
  have hkey : s * ((n : ℤ) - s) ≤ -((n : ℤ) + 1) := by
    rcases h with h | h
    · have h1 : s ≤ -1 := by omega
      have h2 : (n : ℤ) + 1 ≤ (n : ℤ) - s := by omega
      have h3 : s * ((n : ℤ) - s) ≤ (-1) * ((n : ℤ) - s) :=
        mul_le_mul_of_nonneg_right h1 (by omega)
      omega
    · have h1 : (n : ℤ) - s ≤ -1 := by omega
      have h2 : 0 ≤ s := by omega
      have h3 : s * ((n : ℤ) - s) ≤ s * (-1) :=
        mul_le_mul_of_nonneg_left h1 h2
      omega
  have hkeyR : (s : ℝ) * ((n : ℝ) - (s : ℝ)) ≤ -((n : ℝ) + 1) := by
    exact_mod_cast hkey
  have hform : wilsonSqrtArg s n =
      (4 * ((s : ℝ) * ((n : ℝ) - (s : ℝ))) + z95 ^ 2 * n) / (4 * (n : ℝ) ^ 3) := by
    unfold wilsonSqrtArg
    field_simp
    ring
  rw [hform]
  apply div_neg_of_neg_of_pos
  · have hz : z95 ^ 2 = 3.8416 := by norm_num [z95]
    rw [hz]
    nlinarith
  · positivity

/-- C10: the Wilson computation is total only under 0 ≤ successes ≤ n —
outside that range (n > 0) the proportion falls outside [0, 1], the
square-root argument is negative, and the computation fails
(math.sqrt raises) instead of returning an interval. -/
theorem wilson_ci_fails_outside_range (s : ℤ) (n : ℕ) (conf : ℝ) (hn : 0 < n)
    (h : s < 0 ∨ (n : ℤ) < s) :
    ((s : ℝ) / n < 0 ∨ 1 < (s : ℝ) / n) ∧
    wilsonSqrtArg s n < 0 ∧
    compute_wilson_ci s n conf = none := by
  have hN : (0 : ℝ) < n := by exact_mod_cast hn
  have hA := wilsonSqrtArg_neg s n hn h
  refine ⟨?_, hA, ?_⟩
  · rcases h with h | h
    · left
      exact div_neg_of_neg_of_pos (by exact_mod_cast h) hN
    · right
      rw [one_lt_div hN]
      exact_mod_cast h
  · unfold compute_wilson_ci
    rw [if_neg hn.ne', if_pos hA]

/-- C10 witness at successes = 3, n = 2. -/
theorem wilson_ci_fails_outside_range_witness :
    0 < 2 ∧ ((3 : ℤ) < 0 ∨ ((2 : ℕ) : ℤ) < 3) ∧ compute_wilson_ci 3 2 0.95 = none :=
  ⟨by decide, by decide,
    (wilson_ci_fails_outside_range 3 2 0.95 (by decide) (by decide)).2.2⟩

theorem wilson_lower_core_mono (s₁ s₂ : ℤ) (n : ℕ) (hn : 0 < n) (h0 : 0 ≤ s₁)
    (h12 : s₁ ≤ s₂) (h2n : s₂ ≤ (n : ℤ)) :
    wilsonCenter s₁ n - wilsonMargin s₁ n ≤ wilsonCenter s₂ n - wilsonMargin s₂ n := by
  have hN : (0 : ℝ) < n := by exact_mod_cast hn
  have hp12 : (s₁ : ℝ) / n ≤ (s₂ : ℝ) / n := by
    have hc : (s₁ : ℝ) ≤ (s₂ : ℝ) := by exact_mod_cast h12
    gcongr
  have hp10 : (0 : ℝ) ≤ (s₁ : ℝ) / n := div_nonneg (by exact_mod_cast h0) hN.le
  have hp21 : (s₂ : ℝ) / n ≤ 1 := by
    rw [div_le_one hN]
    exact_mod_cast h2n
  have hp20 : (0 : ℝ) ≤ (s₂ : ℝ) / n := le_trans hp10 hp12
  have hp11 : (s₁ : ℝ) / n ≤ 1 := le_trans hp12 hp21
  have hA1 := wilsonSqrtArg_nonneg s₁ n h0 (le_trans h12 h2n)
  have hA2 := wilsonSqrtArg_nonneg s₂ n (le_trans h0 h12) h2n
  have hS1sq : Real.sqrt (wilsonSqrtArg s₁ n) ^ 2 = wilsonSqrtArg s₁ n := Real.sq_sqrt hA1
  have hS2sq : Real.sqrt (wilsonSqrtArg s₂ n) ^ 2 = wilsonSqrtArg s₂ n := Real.sq_sqrt hA2
  have hz2n : (0 : ℝ) ≤ z95 / (2 * n) := div_nonneg z95_nonneg (by positivity)
  have hlb : ∀ s : ℤ, 0 ≤ s → s ≤ (n : ℤ) →
      z95 / (2 * (n : ℝ)) ≤ Real.sqrt (wilsonSqrtArg s n) := by
    intro s hs0 hsn
    have hps0 : (0 : ℝ) ≤ (s : ℝ) / n := div_nonneg (by exact_mod_cast hs0) hN.le
    have hps1 : (s : ℝ) / n ≤ 1 := by
      rw [div_le_one hN]
      exact_mod_cast hsn
    have harglb : (z95 / (2 * (n : ℝ))) ^ 2 ≤ wilsonSqrtArg s n := by
      unfold wilsonSqrtArg
      have h1 : 0 ≤ ((s : ℝ) / n) * (1 - (s : ℝ) / n) / n :=
        div_nonneg (mul_nonneg hps0 (by linarith)) hN.le
      have h2 : (z95 / (2 * (n : ℝ))) ^ 2 = z95 ^ 2 / (4 * (n : ℝ) ^ 2) := by
        rw [div_pow]
        congr 1
        ring
      linarith
    calc z95 / (2 * (n : ℝ)) = Real.sqrt ((z95 / (2 * (n : ℝ))) ^ 2) :=
          (Real.sqrt_sq hz2n).symm
      _ ≤ Real.sqrt (wilsonSqrtArg s n) := Real.sqrt_le_sqrt harglb
  have hS1lb := hlb s₁ h0 (le_trans h12 h2n)
  have hS2lb := hlb s₂ (le_trans h0 h12) h2n
  have hzn_pos : (0 : ℝ) < z95 / (2 * (n : ℝ)) := by
    apply div_pos _ (by positivity)
    norm_num [z95]
  have hsum_pos : (0 : ℝ) < Real.sqrt (wilsonSqrtArg s₁ n) + Real.sqrt (wilsonSqrtArg s₂ n) := by
    linarith
  have hsum_lb : z95 / (n : ℝ) ≤
      Real.sqrt (wilsonSqrtArg s₁ n) + Real.sqrt (wilsonSqrtArg s₂ n) := by
    have h1 : z95 / (2 * (n : ℝ)) + z95 / (2 * (n : ℝ)) = z95 / (n : ℝ) := by
      ring
    linarith
  have hargdiff : wilsonSqrtArg s₂ n - wilsonSqrtArg s₁ n =
      ((s₂ : ℝ) / n - (s₁ : ℝ) / n) * (1 - (s₁ : ℝ) / n - (s₂ : ℝ) / n) / n := by
    unfold wilsonSqrtArg
    field_simp
    ring
  have hkey : z95 * (Real.sqrt (wilsonSqrtArg s₂ n) - Real.sqrt (wilsonSqrtArg s₁ n)) ≤
      (s₂ : ℝ) / n - (s₁ : ℝ) / n := by
    rw [← mul_le_mul_right hsum_pos]
    have hexp : z95 * (Real.sqrt (wilsonSqrtArg s₂ n) - Real.sqrt (wilsonSqrtArg s₁ n)) *
        (Real.sqrt (wilsonSqrtArg s₁ n) + Real.sqrt (wilsonSqrtArg s₂ n)) =
        z95 * (Real.sqrt (wilsonSqrtArg s₂ n) ^ 2 - Real.sqrt (wilsonSqrtArg s₁ n) ^ 2) := by
      ring
    rw [hexp, hS1sq, hS2sq, hargdiff]
    have hfac : (0 : ℝ) ≤ ((s₂ : ℝ) / n - (s₁ : ℝ) / n) * z95 / n :=
      div_nonneg (mul_nonneg (by linarith) z95_nonneg) hN.le
    have h1p : 1 - (s₁ : ℝ) / n - (s₂ : ℝ) / n ≤ 1 := by linarith
    calc z95 * (((s₂ : ℝ) / n - (s₁ : ℝ) / n) * (1 - (s₁ : ℝ) / n - (s₂ : ℝ) / n) / n)
        = (((s₂ : ℝ) / n - (s₁ : ℝ) / n) * z95 / n) * (1 - (s₁ : ℝ) / n - (s₂ : ℝ) / n) := by
          ring
      _ ≤ (((s₂ : ℝ) / n - (s₁ : ℝ) / n) * z95 / n) * 1 :=
          mul_le_mul_of_nonneg_left h1p hfac
      _ = ((s₂ : ℝ) / n - (s₁ : ℝ) / n) * (z95 / n) := by ring
      _ ≤ ((s₂ : ℝ) / n - (s₁ : ℝ) / n) *
            (Real.sqrt (wilsonSqrtArg s₁ n) + Real.sqrt (wilsonSqrtArg s₂ n)) :=
          mul_le_mul_of_nonneg_left hsum_lb (by linarith)
  have e1 : wilsonCenter s₁ n - wilsonMargin s₁ n =
      ((s₁ : ℝ) / n + z95 ^ 2 / (2 * n) - z95 * Real.sqrt (wilsonSqrtArg s₁ n)) /
        wilsonDenominator n := by
    unfold wilsonCenter wilsonMargin
    ring
  have e2 : wilsonCenter s₂ n - wilsonMargin s₂ n =
      ((s₂ : ℝ) / n + z95 ^ 2 / (2 * n) - z95 * Real.sqrt (wilsonSqrtArg s₂ n)) /
        wilsonDenominator n := by
    unfold wilsonCenter wilsonMargin
    ring
  rw [e1, e2, div_le_div_iff_of_pos_right (wilsonDenominator_pos n)]
  linarith

theorem wilson_val_extremes (n : ℕ) (hn : 0 < n) :
    (wilson_ci_val (n : ℤ) n 0.95).1 = 1 / wilsonDenominator n ∧
    (wilson_ci_val (n : ℤ) n 0.95).2 = 1 ∧
    (wilson_ci_val 0 n 0.95).1 = 0 ∧
    (wilson_ci_val 0 n 0.95).2 = (z95 ^ 2 / n) / wilsonDenominator n := by
  have hN : (0 : ℝ) < n := by exact_mod_cast hn
  have hNne : (n : ℝ) ≠ 0 := hN.ne'
  have hz2n : (0 : ℝ) ≤ z95 / (2 * n) := div_nonneg z95_nonneg (by positivity)
  have hA0 : wilsonSqrtArg 0 n = (z95 / (2 * n)) ^ 2 := by
    unfold wilsonSqrtArg
    rw [div_pow]
    norm_num
    congr 1
    ring
  have hAn : wilsonSqrtArg (n : ℤ) n = (z95 / (2 * n)) ^ 2 := by
    unfold wilsonSqrtArg
    rw [Int.cast_natCast, div_self hNne, div_pow]
    norm_num
    congr 1
    ring
  have hs0 : Real.sqrt (wilsonSqrtArg 0 n) = z95 / (2 * n) := by
    rw [hA0, Real.sqrt_sq hz2n]
  have hsn : Real.sqrt (wilsonSqrtArg (n : ℤ) n) = z95 / (2 * n) := by
    rw [hAn, Real.sqrt_sq hz2n]
  have hA0nn : 0 ≤ wilsonSqrtArg 0 n := by
    rw [hA0]
    positivity
  have hAnnn : 0 ≤ wilsonSqrtArg (n : ℤ) n := by
    rw [hAn]
    positivity
  have hd := wilsonDenominator_pos n
  have hmn : wilsonMargin (n : ℤ) n = (z95 ^ 2 / (2 * n)) / wilsonDenominator n := by
    unfold wilsonMargin
    rw [hsn]
    congr 1
    rw [sq]
    ring
  have hm0 : wilsonMargin 0 n = (z95 ^ 2 / (2 * n)) / wilsonDenominator n := by
    unfold wilsonMargin
    rw [hs0]
    congr 1
    rw [sq]
    ring
  have hcn : wilsonCenter (n : ℤ) n = (1 + z95 ^ 2 / (2 * n)) / wilsonDenominator n := by
    unfold wilsonCenter
    rw [Int.cast_natCast, div_self hNne]
  have hc0 : wilsonCenter 0 n = (z95 ^ 2 / (2 * n)) / wilsonDenominator n := by
    unfold wilsonCenter
    norm_num
  rw [wilson_ci_val_eq _ _ _ hn.ne' hAnnn, wilson_ci_val_eq _ _ _ hn.ne' hA0nn]
  have hlon : wilsonCenter (n : ℤ) n - wilsonMargin (n : ℤ) n = 1 / wilsonDenominator n := by
    rw [hcn, hmn]
    ring
  have hhin : wilsonCenter (n : ℤ) n + wilsonMargin (n : ℤ) n = 1 := by
    rw [hcn, hmn]
    have e : (1 + z95 ^ 2 / (2 * n)) / wilsonDenominator n +
        (z95 ^ 2 / (2 * n)) / wilsonDenominator n =
        (1 + z95 ^ 2 / n) / wilsonDenominator n := by
      rw [div_add_div_same]
      congr 1
      ring
    rw [e]
    unfold wilsonDenominator
    apply div_self
    have h : (0 : ℝ) ≤ z95 ^ 2 / (n : ℝ) := div_nonneg (sq_nonneg z95) hN.le
    linarith
  have hlo0 : wilsonCenter 0 n - wilsonMargin 0 n = 0 := by
    rw [hc0, hm0]
    ring
  have hhi0 : wilsonCenter 0 n + wilsonMargin 0 n = (z95 ^ 2 / n) / wilsonDenominator n := by
    rw [hc0, hm0, div_add_div_same]
    congr 1
    ring
  refine ⟨?_, ?_, ?_, ?_⟩
  · simp only [hlon]
    exact max_eq_right (by positivity)
  · simp only [hhin]
    exact min_self 1
  · simp only [hlo0]
    exact max_self 0
  · simp only [hhi0]
    apply min_eq_right
    rw [div_le_one hd]
    unfold wilsonDenominator
    linarith

/-- C9 amended: the significance flag is monotone in the memory arm's
success count (the clamped Wilson lower bound is non-decreasing in
successes at fixed n), so once true it stays true for every larger count
up to n; but it need not eventually become true — when the baseline
interval's upper bound is 1 the flag is false for every memory success
count. -/
theorem significance_monotone (b_s b_n m₁ m₂ m_n : ℕ) (h12 : m₁ ≤ m₂)
    (h2n : m₂ ≤ m_n) (h : significantFlag b_s b_n m₁ m_n) :
    significantFlag b_s b_n m₂ m_n := by
  rcases Nat.eq_zero_or_pos m_n with hz | hpos
  · subst hz
    have h1 : m₁ = 0 := by omega
    have h2 : m₂ = 0 := by omega
    subst h1
    subst h2
    exact h
  · have hn0 : m_n ≠ 0 := hpos.ne'
    have hA1 : 0 ≤ wilsonSqrtArg (m₁ : ℤ) m_n :=
      wilsonSqrtArg_nonneg _ _ (by exact_mod_cast Nat.zero_le m₁)
        (by exact_mod_cast le_trans h12 h2n)
    have hA2 : 0 ≤ wilsonSqrtArg (m₂ : ℤ) m_n :=
      wilsonSqrtArg_nonneg _ _ (by exact_mod_cast Nat.zero_le m₂)
        (by exact_mod_cast h2n)
    unfold significantFlag at h ⊢
    rw [wilson_ci_val_eq _ _ _ hn0 hA1] at h
    rw [wilson_ci_val_eq _ _ _ hn0 hA2]
    have hg := wilson_lower_core_mono (m₁ : ℤ) (m₂ : ℤ) m_n hpos
      (by exact_mod_cast Nat.zero_le m₁) (by exact_mod_cast h12)
      (by exact_mod_cast h2n)
    have h' : (wilson_ci_val b_s b_n 0.95).2 <
        max 0 (wilsonCenter (m₁ : ℤ) m_n - wilsonMargin (m₁ : ℤ) m_n) := h
    exact lt_of_lt_of_le h' (max_le_max (le_refl 0) hg)

/-- C9 amended witness: baseline 0/50, memory 50/50 is significant, and
monotonicity applies at the top count. -/
theorem significance_monotone_witness :
    50 ≤ 50 ∧ 50 ≤ 50 ∧ significantFlag 0 50 50 50 := by
  have hflag : significantFlag 0 50 50 50 := by
    unfold significantFlag
    have hx := wilson_val_extremes 50 (by norm_num)
    simp only [Nat.cast_zero] at hx ⊢
    rw [hx.1, hx.2.2.2]
    rw [gt_iff_lt, div_lt_div_iff_of_pos_right (wilsonDenominator_pos 50)]
    norm_num [z95]
  exact ⟨le_refl 50, le_refl 50,
    significance_monotone 0 50 50 50 50 (le_refl 50) (le_refl 50) hflag⟩

/-- C9 counterexample: with baseline 1 success out of 1 (Wilson upper
bound 1) and memory sample size 1, no memory success count (0 or 1, i.e.
memory accuracy up to 1) makes the significance flag true — the claim's
"for sufficiently high memory accuracy it eventually becomes true" fails
at this concrete configuration. -/
theorem significance_not_eventual :
    ¬ significantFlag 1 1 0 1 ∧ ¬ significantFlag 1 1 1 1 := by
  have hx := wilson_val_extremes 1 (by norm_num)
  simp only [Nat.cast_one] at hx
  constructor
  · intro h
    unfold significantFlag at h
    simp only [Nat.cast_zero, Nat.cast_one] at h
    rw [hx.2.2.1, hx.2.1] at h
    exact absurd h (by norm_num)
  · intro h
    unfold significantFlag at h
    simp only [Nat.cast_one] at h
    rw [hx.1, hx.2.1] at h
    have hd : 1 < wilsonDenominator 1 := by
      unfold wilsonDenominator
      norm_num [z95]
    have hlt : 1 / wilsonDenominator 1 < 1 := by
      rw [div_lt_one (wilsonDenominator_pos 1)]
      exact hd
    exact absurd h (by simp only [gt_iff_lt, not_lt]; linarith)

/-- C8: the summary's absolute improvement is memory accuracy minus
baseline accuracy; relative improvement is absolute/baseline when the
baseline accuracy is positive and 0 when it is 0; the computation is total
(no division-by-zero failure). -/
theorem improvement_fields (baseline with_memory : List Bool) :
    ((save_results_summary baseline with_memory).absolute_improvement =
      (save_results_summary baseline with_memory).with_memory_accuracy -
        (save_results_summary baseline with_memory).baseline_accuracy) ∧
    ((save_results_summary baseline with_memory).baseline_accuracy > 0 →
      (save_results_summary baseline with_memory).relative_improvement =
        (save_results_summary baseline with_memory).absolute_improvement /
          (save_results_summary baseline with_memory).baseline_accuracy) ∧
    ((save_results_summary baseline with_memory).baseline_accuracy = 0 →
      (save_results_summary baseline with_memory).relative_improvement = 0) := by
  refine ⟨rfl, ?_, ?_⟩
  · intro h
    show (if (save_results_summary baseline with_memory).baseline_accuracy > 0
        then ((save_results_summary baseline with_memory).with_memory_accuracy -
          (save_results_summary baseline with_memory).baseline_accuracy) /
          (save_results_summary baseline with_memory).baseline_accuracy
        else 0) =
      (save_results_summary baseline with_memory).absolute_improvement /
        (save_results_summary baseline with_memory).baseline_accuracy
    rw [if_pos h]
    rfl
  · intro h
    show (if (save_results_summary baseline with_memory).baseline_accuracy > 0
        then ((save_results_summary baseline with_memory).with_memory_accuracy -
          (save_results_summary baseline with_memory).baseline_accuracy) /
          (save_results_summary baseline with_memory).baseline_accuracy
        else 0) = 0
    rw [if_neg]
    rw [h]
    exact lt_irrefl 0

/-- C8 witness: a zero baseline accuracy yields relative improvement 0
without failing, and a positive baseline accuracy yields the quotient. -/
theorem improvement_fields_witness :
    ((save_results_summary [false] [true]).baseline_accuracy = 0 ∧
      (save_results_summary [false] [true]).relative_improvement = 0) ∧
    ((save_results_summary [true] [true]).baseline_accuracy > 0 ∧
      (save_results_summary [true] [true]).relative_improvement =
        (save_results_summary [true] [true]).absolute_improvement /
          (save_results_summary [true] [true]).baseline_accuracy) := by
  have hc0 : successCount [false] = 0 := rfl
  have hc1 : successCount [true] = 1 := rfl
  have hacc0 : (save_results_summary [false] [true]).baseline_accuracy = 0 := by
    show (if ([false] : List Bool) = [] then (0 : ℝ)
        else ((successCount [false] : ℝ) / (([false] : List Bool).length : ℝ))) = 0
    rw [if_neg (by simp)]
    rw [hc0]
    norm_num
  have hacc1 : (save_results_summary [true] [true]).baseline_accuracy > 0 := by
    show (if ([true] : List Bool) = [] then (0 : ℝ)
        else ((successCount [true] : ℝ) / (([true] : List Bool).length : ℝ))) > 0
    rw [if_neg (by simp)]
    rw [hc1]
    norm_num
  exact ⟨⟨hacc0, (improvement_fields [false] [true]).2.2 hacc0⟩,
    ⟨hacc1, (improvement_fields [true] [true]).2.1 hacc1⟩⟩
